import Mathlib

/-!
Shallow embedding of `googlecloudsdk/calliope/command_loading.py` (command
loading helpers of the Google Cloud SDK CLI): release-track resolution of
implementation candidates, native-module implementation extraction, and the
custom YAML loader with `!COMMON` include and `_COMMON_` merge extensions.
-/

/-- `base.ReleaseTrack`: a small closed enumeration of release tracks. -/
inductive ReleaseTrack where
  | GA
  | BETA
  | ALPHA
  | PREVIEW
deriving DecidableEq, Repr

/-- The Python exception classes raised by `command_loading.py`. -/
inductive ExceptionClass where
  | layoutException
  | releaseTrackNotImplementedException
  | commandLoadFailure
  | uncaughtPythonError
deriving DecidableEq, Repr

/-- The concrete error values raised by `command_loading.py`, one constructor
per raise site, carrying the data interpolated into the message. -/
inductive CalliopeError where
  /-- raise at the end of `_ExtractReleaseTrackImplementation` (both sites):
  no implementation for the expected track for this element. -/
  | releaseTrackNotImplemented (track : ReleaseTrack) (impl_file : String)
  /-- `_ExtractReleaseTrackImplementation`: multiple implementations and one
  does not declare explicit valid release tracks. -/
  | multipleImplementationsNoTracks (impl_file : String)
  /-- `_ExtractReleaseTrackImplementation`: multiple definitions for the given
  release tracks for this element. -/
  | duplicateReleaseTracks (dups : Finset ReleaseTrack) (impl_file : String)
  /-- `_ImplementationsFromModule`: groups defined in a command file. -/
  | groupsInCommandFile (mod_file : String)
  /-- `_ImplementationsFromModule`: no commands defined in the file. -/
  | noCommandsInFile (mod_file : String)
  /-- `_ImplementationsFromModule`: commands defined in a command group file. -/
  | commandsInGroupFile (mod_file : String)
  /-- `_ImplementationsFromModule`: no command groups defined in the file. -/
  | noGroupsInFile (mod_file : String)
  /-- `Loader._GetData`: the command references common command data but it
  does not exist. -/
  | commonDataMissing (impl_path : String)
  /-- `Loader._GetData`: the command references common command data attribute
  `attribute` in path `attribute_path` but it does not exist. -/
  | commonDataAttributeMissing (impl_path attr attr_path : String)
  /-- A Python `AttributeError` / `TypeError` escaping uncaught (e.g. calling
  `.split` on a non-string merge value): not one of the module's exceptions. -/
  | uncaughtTypeError (impl_path : String)
deriving DecidableEq

/-- The exception class each error value belongs to. -/
def CalliopeError.classOf : CalliopeError → ExceptionClass
  | .releaseTrackNotImplemented _ _ => .releaseTrackNotImplementedException
  | .multipleImplementationsNoTracks _ => .layoutException
  | .duplicateReleaseTracks _ _ => .layoutException
  | .groupsInCommandFile _ => .layoutException
  | .noCommandsInFile _ => .layoutException
  | .commandsInGroupFile _ => .layoutException
  | .noGroupsInFile _ => .layoutException
  | .commonDataMissing _ => .layoutException
  | .commonDataAttributeMissing _ _ _ => .layoutException
  | .uncaughtTypeError _ => .uncaughtPythonError

/-- The first loop of `_ExtractReleaseTrackImplementation` in the
multi-candidate case: walking the implementations, each must declare a
non-empty track set, no track may recur, and the accumulator
`implemented_release_tracks` collects the tracks seen so far. -/
def checkTrackConflicts (impl_file : String) :
    List (α × Finset ReleaseTrack) → Finset ReleaseTrack →
    Except CalliopeError Unit
  | [], _ => Except.ok ()
  | (_, valid_tracks) :: rest, implemented =>
      if valid_tracks = ∅ then
        Except.error (.multipleImplementationsNoTracks impl_file)
      else if (implemented ∩ valid_tracks).Nonempty then
        Except.error (.duplicateReleaseTracks (implemented ∩ valid_tracks)
          impl_file)
      else
        checkTrackConflicts impl_file rest (implemented ∪ valid_tracks)

/-- The multi-candidate tail of `_ExtractReleaseTrackImplementation`: after the
conflict check, filter to candidates validating the expected track; exactly one
must remain. -/
def multiTrackExtract (impl_file : String) (expected_track : ReleaseTrack)
    (implementations : List (α × Finset ReleaseTrack)) :
    Except CalliopeError α :=
  match checkTrackConflicts impl_file implementations ∅ with
  | Except.error e => Except.error e
  | Except.ok _ =>
      match implementations.filter (fun p => expected_track ∈ p.2) with
      | [v] => Except.ok v.1
      | _ =>
          Except.error (.releaseTrackNotImplemented expected_track impl_file)

/-- `_ExtractReleaseTrackImplementation(impl_file, expected_track,
implementations)`: validates and extracts the implementation of the command or
group matching the expected release track. A candidate is a pair of an
artifact producer (kept opaque, type `α`) and the set of release tracks it is
valid for. -/
def extractReleaseTrackImplementation (impl_file : String)
    (expected_track : ReleaseTrack)
    (implementations : List (α × Finset ReleaseTrack)) :
    Except CalliopeError α :=
  match implementations with
  | [(impl, valid_tracks)] =>
      if valid_tracks = ∅ ∨ expected_track ∈ valid_tracks then
        Except.ok impl
      else
        Except.error (.releaseTrackNotImplemented expected_track impl_file)
  | impls => multiTrackExtract impl_file expected_track impls

/-- C1: For every implementation candidate list of length exactly 1,
resolution returns the candidate's producer if the candidate's track set is
empty (wildcard) or contains the requested release track, and otherwise fails
with `ReleaseTrackNotImplementedException` naming the requested track and the
source location. -/
theorem single_candidate_resolution {α : Type} (impl_file : String)
    (expected_track : ReleaseTrack) (impl : α)
    (valid_tracks : Finset ReleaseTrack) :
    (valid_tracks = ∅ ∨ expected_track ∈ valid_tracks →
      extractReleaseTrackImplementation impl_file expected_track
        [(impl, valid_tracks)] = Except.ok impl) ∧
    (¬ (valid_tracks = ∅ ∨ expected_track ∈ valid_tracks) →
      extractReleaseTrackImplementation impl_file expected_track
        [(impl, valid_tracks)] =
        Except.error
          (.releaseTrackNotImplemented expected_track impl_file) ∧
      CalliopeError.classOf
          (.releaseTrackNotImplemented expected_track impl_file) =
        .releaseTrackNotImplementedException) := by
  constructor
  · intro h
    simp [extractReleaseTrackImplementation, h]
  · intro h
    refine ⟨?_, rfl⟩
    simp [extractReleaseTrackImplementation, h]

/-- Witness for C1: concrete evaluations of both branches. -/
theorem single_candidate_resolution_witness :
    extractReleaseTrackImplementation "cmd.yaml" ReleaseTrack.GA
      [((0 : Nat), (∅ : Finset ReleaseTrack))] = Except.ok 0 ∧
    extractReleaseTrackImplementation "cmd.yaml" ReleaseTrack.GA
      [((0 : Nat), ({ReleaseTrack.BETA} : Finset ReleaseTrack))] =
      Except.error
        (.releaseTrackNotImplemented ReleaseTrack.GA "cmd.yaml") := by
  refine ⟨?_, ?_⟩
  · exact (single_candidate_resolution "cmd.yaml" ReleaseTrack.GA 0 ∅).1
      (Or.inl rfl)
  · exact ((single_candidate_resolution "cmd.yaml" ReleaseTrack.GA 0
      {ReleaseTrack.BETA}).2 (by decide)).1

/-- The number of candidates in a list claiming release track `t`. -/
def trackClaimCount (t : ReleaseTrack) (l : List (α × Finset ReleaseTrack)) :
    Nat :=
  l.countP (fun p => decide (t ∈ p.2))

lemma extract_eq_multi {α : Type} (impl_file : String)
    (expected_track : ReleaseTrack) (a b : α × Finset ReleaseTrack)
    (l : List (α × Finset ReleaseTrack)) :
    extractReleaseTrackImplementation impl_file expected_track (a :: b :: l) =
      multiTrackExtract impl_file expected_track (a :: b :: l) := rfl

lemma checkTrackConflicts_ok_of_disjoint {α : Type} (impl_file : String)
    (l : List (α × Finset ReleaseTrack)) (acc : Finset ReleaseTrack)
    (hne : ∀ p ∈ l, p.2 ≠ ∅)
    (hdisj : l.Pairwise fun a b => Disjoint a.2 b.2)
    (hacc : ∀ p ∈ l, Disjoint acc p.2) :
    checkTrackConflicts impl_file l acc = Except.ok () := by
  induction l generalizing acc with
  | nil => rfl
  | cons hd tl ih =>
      obtain ⟨hhd, htl⟩ := List.pairwise_cons.mp hdisj
      have hhdne : hd.2 ≠ ∅ := hne hd (List.mem_cons_self _ _)
      have hint : ¬ (acc ∩ hd.2).Nonempty := by
        rw [Finset.not_nonempty_iff_eq_empty,
          ← Finset.disjoint_iff_inter_eq_empty]
        exact hacc hd (List.mem_cons_self _ _)
      obtain ⟨i, s⟩ := hd
      simp only [checkTrackConflicts]
      rw [if_neg hhdne, if_neg hint]
      exact ih (acc ∪ s) (fun p hp => hne p (List.mem_cons_of_mem _ hp)) htl
        (fun p hp => Finset.disjoint_union_left.mpr
          ⟨hacc p (List.mem_cons_of_mem _ hp), hhd p hp⟩)

lemma filter_track_eq_singleton {α : Type} (t : ReleaseTrack)
    (l : List (α × Finset ReleaseTrack)) (p : α × Finset ReleaseTrack)
    (hdisj : l.Pairwise fun a b => Disjoint a.2 b.2)
    (hmem : p ∈ l) (ht : t ∈ p.2) :
    l.filter (fun q => decide (t ∈ q.2)) = [p] := by
  induction l with
  | nil => cases hmem
  | cons hd tl ih =>
      obtain ⟨hhd, htl⟩ := List.pairwise_cons.mp hdisj
      rcases List.mem_cons.mp hmem with h | h
      · subst h
        have htlnil : tl.filter (fun q => decide (t ∈ q.2)) = [] := by
          rw [List.filter_eq_nil_iff]
          intro q hq
          simp only [decide_eq_true_eq]
          exact fun htq => (hhd q hq).forall_ne_finset ht htq rfl
        simp [List.filter_cons, ht, htlnil]
      · have hthd : t ∉ hd.2 := fun hthd =>
          (hhd p h).forall_ne_finset hthd ht rfl
        simp only [List.filter_cons, decide_eq_true_eq, hthd, if_false]
        exact ih htl h

lemma checkTrackConflicts_ok_imp {α : Type} (impl_file : String)
    (l : List (α × Finset ReleaseTrack)) :
    ∀ acc, checkTrackConflicts impl_file l acc = Except.ok () →
      l.Pairwise (fun a b => Disjoint a.2 b.2) ∧ ∀ p ∈ l, Disjoint acc p.2 := by
  induction l with
  | nil => exact fun acc _ => ⟨List.Pairwise.nil, by simp⟩
  | cons hd tl ih =>
      intro acc h
      obtain ⟨i, s⟩ := hd
      simp only [checkTrackConflicts] at h
      by_cases h1 : s = ∅
      · rw [if_pos h1] at h; exact absurd h (by simp)
      · rw [if_neg h1] at h
        by_cases h2 : (acc ∩ s).Nonempty
        · rw [if_pos h2] at h; exact absurd h (by simp)
        · rw [if_neg h2] at h
          obtain ⟨hpw, hdisj⟩ := ih (acc ∪ s) h
          have haccs : Disjoint acc s := by
            rwa [Finset.not_nonempty_iff_eq_empty,
              ← Finset.disjoint_iff_inter_eq_empty] at h2
          refine ⟨List.pairwise_cons.mpr
            ⟨fun b hb => (Finset.disjoint_union_left.mp (hdisj b hb)).2, hpw⟩,
            ?_⟩
          intro p hp
          rcases List.mem_cons.mp hp with rfl | hp'
          · exact haccs
          · exact (Finset.disjoint_union_left.mp (hdisj p hp')).1

lemma checkTrackConflicts_error_form {α : Type} (impl_file : String)
    (l : List (α × Finset ReleaseTrack)) :
    ∀ acc, (∀ p ∈ l, p.2 ≠ ∅) →
      checkTrackConflicts impl_file l acc = Except.ok () ∨
      ∃ d : Finset ReleaseTrack, d.Nonempty ∧
        checkTrackConflicts impl_file l acc =
          Except.error (.duplicateReleaseTracks d impl_file) ∧
        ∀ t ∈ d, 1 ≤ trackClaimCount t l ∧
          (t ∈ acc ∨ 2 ≤ trackClaimCount t l) := by
  induction l with
  | nil => exact fun acc _ => Or.inl rfl
  | cons hd tl ih =>
      intro acc hne
      obtain ⟨i, s⟩ := hd
      have hs : s ≠ ∅ := hne (i, s) (List.mem_cons_self _ _)
      by_cases h2 : (acc ∩ s).Nonempty
      · refine Or.inr ⟨acc ∩ s, h2, ?_, ?_⟩
        · simp only [checkTrackConflicts]; rw [if_neg hs, if_pos h2]
        · intro t ht
          have hts : t ∈ s := (Finset.mem_inter.mp ht).2
          have hta : t ∈ acc := (Finset.mem_inter.mp ht).1
          refine ⟨?_, Or.inl hta⟩
          simp [trackClaimCount, List.countP_cons, hts]
      · rcases ih (acc ∪ s) (fun p hp => hne p (List.mem_cons_of_mem _ hp))
          with hok | ⟨d, hdne, herr, hprop⟩
        · left
          simp only [checkTrackConflicts]; rw [if_neg hs, if_neg h2]
          exact hok
        · right
          refine ⟨d, hdne, ?_, ?_⟩
          · simp only [checkTrackConflicts]; rw [if_neg hs, if_neg h2]
            exact herr
          · intro t ht
            obtain ⟨h1c, h2c⟩ := hprop t ht
            have hcount : trackClaimCount t ((i, s) :: tl) =
                trackClaimCount t tl + (if t ∈ s then 1 else 0) := by
              simp [trackClaimCount, List.countP_cons]
            constructor
            · rw [hcount]; omega
            · rcases h2c with hacc' | h2'
              · rcases Finset.mem_union.mp hacc' with hta | hts
                · exact Or.inl hta
                · right; rw [hcount, if_pos hts]; omega
              · right; rw [hcount]; omega

/-- C2: For every implementation candidate list of length greater than 1 in
which every candidate declares a non-empty track set and the track sets are
pairwise disjoint, resolution returns the unique candidate whose track set
contains the requested track, and fails with
`ReleaseTrackNotImplementedException` when no candidate's track set contains
the requested track. -/
theorem multi_candidate_disjoint_resolution {α : Type} (impl_file : String)
    (expected_track : ReleaseTrack)
    (impls : List (α × Finset ReleaseTrack))
    (hlen : 1 < impls.length)
    (hne : ∀ p ∈ impls, p.2 ≠ ∅)
    (hdisj : impls.Pairwise fun a b => Disjoint a.2 b.2) :
    (∀ p ∈ impls, expected_track ∈ p.2 →
      extractReleaseTrackImplementation impl_file expected_track impls =
        Except.ok p.1) ∧
    ((∀ p ∈ impls, expected_track ∉ p.2) →
      extractReleaseTrackImplementation impl_file expected_track impls =
        Except.error
          (.releaseTrackNotImplemented expected_track impl_file)) := by
  obtain _ | ⟨a, _ | ⟨b, rest⟩⟩ := impls
  · exact absurd hlen (by simp)
  · exact absurd hlen (by simp)
  · have hok : checkTrackConflicts impl_file (a :: b :: rest) ∅ =
        Except.ok () :=
      checkTrackConflicts_ok_of_disjoint impl_file _ ∅ hne hdisj (by simp)
    constructor
    · intro p hp hmem
      have hfilter :=
        filter_track_eq_singleton expected_track (a :: b :: rest) p hdisj
          hp hmem
      rw [extract_eq_multi]
      simp only [multiTrackExtract, hok, hfilter]
    · intro hnone
      have hfilter : (a :: b :: rest).filter
          (fun q => decide (expected_track ∈ q.2)) = [] := by
        rw [List.filter_eq_nil_iff]
        intro q hq
        simp only [decide_eq_true_eq]
        exact hnone q hq
      rw [extract_eq_multi]
      simp only [multiTrackExtract, hok, hfilter]

/-- Witness for C2: two disjoint explicitly-tracked candidates; the BETA
request picks the BETA candidate, the ALPHA request fails. -/
theorem multi_candidate_disjoint_resolution_witness :
    extractReleaseTrackImplementation "svc.py" ReleaseTrack.BETA
      [((0 : Nat), ({ReleaseTrack.GA} : Finset ReleaseTrack)),
       ((1 : Nat), ({ReleaseTrack.BETA} : Finset ReleaseTrack))] =
      Except.ok 1 ∧
    extractReleaseTrackImplementation "svc.py" ReleaseTrack.ALPHA
      [((0 : Nat), ({ReleaseTrack.GA} : Finset ReleaseTrack)),
       ((1 : Nat), ({ReleaseTrack.BETA} : Finset ReleaseTrack))] =
      Except.error
        (.releaseTrackNotImplemented ReleaseTrack.ALPHA "svc.py") := by
  constructor
  · exact (multi_candidate_disjoint_resolution "svc.py" ReleaseTrack.BETA
      [(0, {ReleaseTrack.GA}), (1, {ReleaseTrack.BETA})]
      (by decide) (by decide) (by decide)).1
      (1, {ReleaseTrack.BETA}) (by decide) (by decide)
  · exact (multi_candidate_disjoint_resolution "svc.py" ReleaseTrack.ALPHA
      [(0, {ReleaseTrack.GA}), (1, {ReleaseTrack.BETA})]
      (by decide) (by decide) (by decide)).2 (by decide)

/-- C3: For every implementation candidate list of length greater than 1 in
which every candidate declares a non-empty track set and some release track is
claimed by more than one candidate, resolution fails with a `LayoutException`
naming the overlapping track(s), and it fails that way for every reordering of
the candidate list (the disjointness check is global across the whole list). -/
theorem overlapping_tracks_layout_error {α : Type} (impl_file : String)
    (expected_track : ReleaseTrack) (impls : List (α × Finset ReleaseTrack))
    (hlen : 1 < impls.length)
    (hne : ∀ p ∈ impls, p.2 ≠ ∅)
    (hover : ¬ impls.Pairwise fun a b => Disjoint a.2 b.2) :
    ∀ l', impls.Perm l' →
      ∃ d : Finset ReleaseTrack, d.Nonempty ∧
        (∀ t ∈ d, 2 ≤ trackClaimCount t l') ∧
        extractReleaseTrackImplementation impl_file expected_track l' =
          Except.error (.duplicateReleaseTracks d impl_file) ∧
        CalliopeError.classOf (.duplicateReleaseTracks d impl_file) =
          .layoutException := by
  intro l' hperm
  have hlen' : 1 < l'.length := hperm.length_eq ▸ hlen
  have hne' : ∀ p ∈ l', p.2 ≠ ∅ := fun p hp => hne p (hperm.mem_iff.mpr hp)
  have hover' : ¬ l'.Pairwise (fun a b => Disjoint a.2 b.2) := fun h =>
    hover ((hperm.pairwise_iff fun hxy => Disjoint.symm hxy).mpr h)
  rcases checkTrackConflicts_error_form impl_file l' ∅ hne'
    with hok | ⟨d, hdne, herr, hprop⟩
  · exact absurd (checkTrackConflicts_ok_imp impl_file l' ∅ hok).1 hover'
  · refine ⟨d, hdne, fun t ht => ?_, ?_, rfl⟩
    · rcases (hprop t ht).2 with h | h
      · exact absurd h (Finset.not_mem_empty t)
      · exact h
    · obtain _ | ⟨a, _ | ⟨b, rest⟩⟩ := l'
      · exact absurd hlen' (by simp)
      · exact absurd hlen' (by simp)
      · rw [extract_eq_multi]
        simp only [multiTrackExtract, herr]

/-- Witness for C3: two candidates both claiming GA. -/
theorem overlapping_tracks_layout_error_witness :
    ∃ d : Finset ReleaseTrack, d.Nonempty ∧
      (∀ t ∈ d, 2 ≤ trackClaimCount t
        [((0 : Nat), ({ReleaseTrack.GA} : Finset ReleaseTrack)),
         ((1 : Nat), ({ReleaseTrack.GA} : Finset ReleaseTrack))]) ∧
      extractReleaseTrackImplementation "svc.py" ReleaseTrack.BETA
        [((0 : Nat), ({ReleaseTrack.GA} : Finset ReleaseTrack)),
         ((1 : Nat), ({ReleaseTrack.GA} : Finset ReleaseTrack))] =
        Except.error (.duplicateReleaseTracks d "svc.py") ∧
      CalliopeError.classOf (.duplicateReleaseTracks d "svc.py") =
        .layoutException :=
  overlapping_tracks_layout_error "svc.py" ReleaseTrack.BETA
    [(0, {ReleaseTrack.GA}), (1, {ReleaseTrack.GA})]
    (by decide) (by decide) (by decide) _ (List.Perm.refl _)

/-- A top-level value of a native command module, as classified by the loop in
`_ImplementationsFromModule`: a type subclassing `base.Command`, a type
subclassing `base.Group` (each with its `ValidReleaseTracks()`), or any other
module attribute, which is ignored. -/
inductive ModuleAttr (α : Type) where
  | commandType (c : α) (tracks : Finset ReleaseTrack)
  | groupType (g : α) (tracks : Finset ReleaseTrack)
  | other

/-- The `commands` list collected by `_ImplementationsFromModule`, paired with
each command's declared valid release tracks. -/
def moduleCommands (module_attributes : List (ModuleAttr α)) :
    List (α × Finset ReleaseTrack) :=
  module_attributes.filterMap fun a =>
    match a with
    | .commandType c t => some (c, t)
    | _ => none

/-- The `groups` list collected by `_ImplementationsFromModule`. -/
def moduleGroups (module_attributes : List (ModuleAttr α)) :
    List (α × Finset ReleaseTrack) :=
  module_attributes.filterMap fun a =>
    match a with
    | .groupType g t => some (g, t)
    | _ => none

/-- `_ImplementationsFromModule(mod_file, module_attributes, is_command)`:
partitions the module's top-level type definitions into commands and groups,
checks that only the expected kind is present and that at least one is, and
returns each qualifying definition with its declared valid tracks. -/
def implementationsFromModule (mod_file : String)
    (module_attributes : List (ModuleAttr α)) (is_command : Bool) :
    Except CalliopeError (List (α × Finset ReleaseTrack)) :=
  let commands := moduleCommands module_attributes
  let groups := moduleGroups module_attributes
  if is_command then
    if !groups.isEmpty then Except.error (.groupsInCommandFile mod_file)
    else if commands.isEmpty then Except.error (.noCommandsInFile mod_file)
    else Except.ok commands
  else
    if !commands.isEmpty then Except.error (.commandsInGroupFile mod_file)
    else if groups.isEmpty then Except.error (.noGroupsInFile mod_file)
    else Except.ok groups

/-- C8: When loading implementations from a native module with
`is_command = true`, loading fails with a `LayoutException` if the module's
top-level definitions include any Group-tagged type, and fails with a
`LayoutException` if they include zero Command-tagged types; with
`is_command = false` the symmetric checks apply. -/
theorem module_kind_checks {α : Type} (mod_file : String)
    (attrs : List (ModuleAttr α)) :
    (moduleGroups attrs ≠ [] →
      implementationsFromModule mod_file attrs true =
        Except.error (.groupsInCommandFile mod_file)) ∧
    (moduleGroups attrs = [] → moduleCommands attrs = [] →
      implementationsFromModule mod_file attrs true =
        Except.error (.noCommandsInFile mod_file)) ∧
    (moduleCommands attrs ≠ [] →
      implementationsFromModule mod_file attrs false =
        Except.error (.commandsInGroupFile mod_file)) ∧
    (moduleCommands attrs = [] → moduleGroups attrs = [] →
      implementationsFromModule mod_file attrs false =
        Except.error (.noGroupsInFile mod_file)) ∧
    CalliopeError.classOf (.groupsInCommandFile mod_file) =
      .layoutException ∧
    CalliopeError.classOf (.noCommandsInFile mod_file) = .layoutException ∧
    CalliopeError.classOf (.commandsInGroupFile mod_file) =
      .layoutException ∧
    CalliopeError.classOf (.noGroupsInFile mod_file) = .layoutException := by
  refine ⟨?_, ?_, ?_, ?_, rfl, rfl, rfl, rfl⟩
  · intro h
    simp [implementationsFromModule, List.isEmpty_iff, h]
  · intro hg hc
    simp [implementationsFromModule, List.isEmpty_iff, hg, hc]
  · intro h
    simp [implementationsFromModule, List.isEmpty_iff, h]
  · intro hc hg
    simp [implementationsFromModule, List.isEmpty_iff, hg, hc]

/-- Witness for C8: all four failing configurations evaluated concretely. -/
theorem module_kind_checks_witness :
    implementationsFromModule "surface/cmd.py"
      [ModuleAttr.groupType (0 : Nat) ∅] true =
      Except.error (.groupsInCommandFile "surface/cmd.py") ∧
    implementationsFromModule "surface/cmd.py"
      ([ModuleAttr.other] : List (ModuleAttr Nat)) true =
      Except.error (.noCommandsInFile "surface/cmd.py") ∧
    implementationsFromModule "surface/cmd.py"
      [ModuleAttr.commandType (0 : Nat) ∅] false =
      Except.error (.commandsInGroupFile "surface/cmd.py") ∧
    implementationsFromModule "surface/cmd.py"
      ([ModuleAttr.other] : List (ModuleAttr Nat)) false =
      Except.error (.noGroupsInFile "surface/cmd.py") :=
  ⟨(module_kind_checks "surface/cmd.py"
      [ModuleAttr.groupType (0 : Nat) ∅]).1 (by decide),
   (module_kind_checks "surface/cmd.py"
      ([ModuleAttr.other] : List (ModuleAttr Nat))).2.1 (by decide) (by decide),
   (module_kind_checks "surface/cmd.py"
      [ModuleAttr.commandType (0 : Nat) ∅]).2.2.1 (by decide),
   (module_kind_checks "surface/cmd.py"
      ([ModuleAttr.other] : List (ModuleAttr Nat))).2.2.2.1
      (by decide) (by decide)⟩

/-- A constructed YAML value as produced by the loaders in `CreateYamlLoader`:
scalars are kept as their string text, sequences as lists, and mappings as
insertion-ordered association lists (Python dicts). -/
inductive YValue where
  | str (s : String)
  | seq (xs : List YValue)
  | map (entries : List (String × YValue))

/-- `d.get(k, None)` on a Python dict modelled as an association list. -/
def dictGet (m : List (String × YValue)) (k : String) : Option YValue :=
  (m.find? (fun p => p.1 == k)).map Prod.snd

/-- `d.pop(k, None)` leaves the dict without key `k`. -/
def dictRemove (m : List (String × YValue)) (k : String) :
    List (String × YValue) :=
  m.filter (fun p => p.1 != k)

/-- `d[k] = v` on a Python dict: overwrite in place when the key is present,
append at the end otherwise. -/
def dictSet (m : List (String × YValue)) (k : String) (v : YValue) :
    List (String × YValue) :=
  if m.any (fun p => p.1 == k) then
    m.map (fun p => if p.1 == k then (k, v) else p)
  else m ++ [(k, v)]

/-- `d.update(n)`: set every entry of `n` in order. -/
def dictUpdate (m n : List (String × YValue)) : List (String × YValue) :=
  n.foldl (fun acc p => dictSet acc p.1 p.2) m

/-- `str.split(sep)` on the character list of a Python string: splitting on a
single-character separator, keeping empty fragments (`"".split(sep) == ['']`).
-/
def pySplitList (sep : Char) : List Char → List (List Char)
  | [] => [[]]
  | c :: cs =>
      match pySplitList sep cs with
      | [] => [[c]]
      | h :: t => if c = sep then [] :: h :: t else (c :: h) :: t

/-- `s.split(sep)` for a single-character separator `sep`, as used with `','`
and `'.'` by the loader. -/
def pySplit (sep : Char) (s : String) : List String :=
  (pySplitList sep s.data).map String.mk

/-- Whether the character list `p` is an initial segment of `s`. -/
def listHasLeading : List Char → List Char → Bool
  | [], _ => true
  | _ :: _, [] => false
  | a :: as, b :: bs => a == b && listHasLeading as bs

/-- `s.startswith(p)` on Python strings. -/
def strHasLeading (p s : String) : Bool :=
  listHasLeading p.data s.data

/-- Python truthiness of a constructed YAML value: the empty string, the empty
sequence and the empty mapping are falsy. -/
def yFalsy : YValue → Bool
  | .str s => s == ""
  | .seq xs => xs.isEmpty
  | .map m => m.isEmpty

/-- The attribute loop in `Loader._GetData`: `value = value.get(attribute,
None)` for each dot segment, failing with the layout error when the segment is
missing or resolves to a falsy value, and with an uncaught `AttributeError`
when `value` is not a mapping. -/
def getDataWalk (impl_path attr_path : String) :
    YValue → List String → Except CalliopeError YValue
  | v, [] => Except.ok v
  | v, a :: rest =>
      match v with
      | .map m =>
          match dictGet m a with
          | none =>
              Except.error (.commonDataAttributeMissing impl_path a attr_path)
          | some v2 =>
              if yFalsy v2 then
                Except.error
                  (.commonDataAttributeMissing impl_path a attr_path)
              else getDataWalk impl_path attr_path v2 rest
      | _ => Except.error (.uncaughtTypeError impl_path)

/-- `Loader._GetData(attribute_path)`: fail if the Common-Data Document is
absent or falsy, then resolve the dot-separated attribute path against it.
Also the handler behind the `!COMMON` include tag (`Loader.include`). -/
def getData (common_data : Option YValue) (impl_path : String)
    (attribute_path : String) : Except CalliopeError YValue :=
  match common_data with
  | none => Except.error (.commonDataMissing impl_path)
  | some c =>
      if yFalsy c then Except.error (.commonDataMissing impl_path)
      else getDataWalk impl_path attribute_path c (pySplit '.' attribute_path)

/-- The merge loop of `Loader.construct_mapping`:
`for path in attribute_path.split(','): data.update(self._GetData(path))`.
`update` with a resolved value that is not a mapping is modelled as the
uncaught Python `TypeError` it raises on YAML-constructed data. -/
def mergePaths (common_data : Option YValue) (impl_path : String) :
    List (String × YValue) → List String →
    Except CalliopeError (List (String × YValue))
  | data, [] => Except.ok data
  | data, path :: rest =>
      match getData common_data impl_path path with
      | Except.error e => Except.error e
      | Except.ok (.map n) =>
          mergePaths common_data impl_path (dictUpdate data n) rest
      | Except.ok _ => Except.error (.uncaughtTypeError impl_path)

/-- `Loader.construct_mapping`, after the underlying constructor produced the
mapping `data`: pop the `_COMMON_` merge key; when its value is truthy it must
be a string, and each comma-separated attribute path is resolved and merged
into the mapping by `update`. -/
def constructMapping (common_data : Option YValue) (impl_path : String)
    (data : List (String × YValue)) :
    Except CalliopeError (List (String × YValue)) :=
  match dictGet data "_COMMON_" with
  | none => Except.ok data
  | some v =>
      if yFalsy v then Except.ok (dictRemove data "_COMMON_")
      else
        match v with
        | .str s =>
            mergePaths common_data impl_path (dictRemove data "_COMMON_")
              (pySplit ',' s)
        | _ => Except.error (.uncaughtTypeError impl_path)

/-- Python iteration over a value, as used by `new_list.extend(value)` in
`Loader.construct_sequence`: the elements of a list, the characters of a
string, the keys of a dict. -/
def yIterate : YValue → List YValue
  | .seq xs => xs
  | .str s => s.toList.map (fun c => YValue.str (String.singleton c))
  | .map m => m.map (fun p => YValue.str p.1)

/-- A constructed sequence element that triggers the merge macro: a string
starting with `_COMMON_`; the result is the remainder after the macro prefix
(`i[len(Loader.MERGE_MACRO):]`). -/
def mergeMarkerPath : YValue → Option String
  | .str s =>
      if strHasLeading "_COMMON_" s then some (String.mk (s.data.drop 8))
      else none
  | _ => none

/-- The inner loop of `Loader.construct_sequence` for one marker element:
`for path in attribute_path.split(','): new_list.extend(self._GetData(path))`.
-/
def extendPaths (common_data : Option YValue) (impl_path : String) :
    List String → Except CalliopeError (List YValue)
  | [] => Except.ok []
  | path :: rest =>
      match getData common_data impl_path path with
      | Except.error e => Except.error e
      | Except.ok v =>
          match extendPaths common_data impl_path rest with
          | Except.error e => Except.error e
          | Except.ok vs => Except.ok (yIterate v ++ vs)

/-- `Loader.construct_sequence`, after the underlying constructor produced the
element list: splice the resolved common data in place of `_COMMON_`-prefixed
string elements, preserving the relative order of everything else. -/
def constructSequence (common_data : Option YValue) (impl_path : String) :
    List YValue → Except CalliopeError (List YValue)
  | [] => Except.ok []
  | i :: rest =>
      match mergeMarkerPath i with
      | some attr_path =>
          match extendPaths common_data impl_path (pySplit ',' attr_path) with
          | Except.error e => Except.error e
          | Except.ok vs =>
              match constructSequence common_data impl_path rest with
              | Except.error e => Except.error e
              | Except.ok rest' => Except.ok (vs ++ rest')
      | none =>
          match constructSequence common_data impl_path rest with
          | Except.error e => Except.error e
          | Except.ok rest' => Except.ok (i :: rest')

lemma dictGet_cons (k₁ k : String) (v₁ : YValue) (m : List (String × YValue)) :
    dictGet ((k₁, v₁) :: m) k = if k₁ = k then some v₁ else dictGet m k := by
  by_cases h : k₁ = k
  · simp [dictGet, List.find?_cons_of_pos, h]
  · simp only [dictGet, h, if_false]
    rw [List.find?_cons_of_neg]
    simp [h]

lemma dictGet_none_of_not_mem (k : String) (m : List (String × YValue))
    (h : k ∉ m.map Prod.fst) : dictGet m k = none := by
  induction m with
  | nil => rfl
  | cons p m' ih =>
      obtain ⟨k₁, v₁⟩ := p
      simp only [List.map_cons, List.mem_cons] at h
      push_neg at h
      rw [dictGet_cons, if_neg (fun he => h.1 he.symm)]
      exact ih h.2

lemma dictSet_cons_ne (k₁ k : String) (v₁ v : YValue)
    (m : List (String × YValue)) (h : k₁ ≠ k) :
    dictSet ((k₁, v₁) :: m) k v = (k₁, v₁) :: dictSet m k v := by
  by_cases ha : m.any (fun p => p.1 == k)
  · simp [dictSet, ha, h]
  · simp [dictSet, ha, h]

lemma dictGet_dictSet_self (k : String) (v : YValue)
    (m : List (String × YValue)) : dictGet (dictSet m k v) k = some v := by
  induction m with
  | nil => simp [dictSet, dictGet, List.find?_cons_of_pos]
  | cons p m' ih =>
      obtain ⟨k₁, v₁⟩ := p
      by_cases h : k₁ = k
      · subst h
        have ha : ((k₁, v₁) :: m').any (fun p => p.1 == k₁) = true := by
          simp [List.any_cons]
        have hb : (k₁ == k₁) = true := by simp
        simp only [dictSet, ha, if_true, List.map_cons, hb]
        rw [dictGet_cons, if_pos rfl]
      · rw [dictSet_cons_ne _ _ _ _ _ h, dictGet_cons, if_neg h]
        exact ih

lemma dictGet_map_overwrite_ne (k k' : String) (v : YValue)
    (m : List (String × YValue)) (h : k' ≠ k) :
    dictGet (m.map (fun p => if p.1 == k then (k, v) else p)) k' =
      dictGet m k' := by
  induction m with
  | nil => rfl
  | cons p m' ih =>
      obtain ⟨k₁, v₁⟩ := p
      rw [List.map_cons]
      by_cases h1 : k₁ = k
      · subst h1
        have hb : (((k₁, v₁) : String × YValue).1 == k₁) = true := by simp
        rw [if_pos hb, dictGet_cons, dictGet_cons,
          if_neg (fun he => h he.symm), if_neg (fun he => h he.symm)]
        exact ih
      · have hb : ¬ ((((k₁, v₁) : String × YValue).1 == k) = true) := by
          simp [h1]
        rw [if_neg hb, dictGet_cons, dictGet_cons]
        by_cases h2 : k₁ = k'
        · simp [h2]
        · rw [if_neg h2, if_neg h2]
          exact ih

lemma dictGet_dictSet_ne (k k' : String) (v : YValue)
    (m : List (String × YValue)) (h : k' ≠ k) :
    dictGet (dictSet m k v) k' = dictGet m k' := by
  unfold dictSet
  by_cases ha : m.any (fun p => p.1 == k)
  · rw [if_pos ha]
    exact dictGet_map_overwrite_ne k k' v m h
  · rw [if_neg ha]
    have h2 : List.find? (fun p => p.1 == k') [((k, v) : String × YValue)] =
        none := by
      rw [List.find?_cons_of_neg]
      · rfl
      · simp
        exact fun he => h he.symm
    unfold dictGet
    rw [List.find?_append, h2]
    cases List.find? (fun p => p.1 == k') m <;> rfl

lemma dictGet_dictUpdate_none (k : String) (n : List (String × YValue))
    (h : dictGet n k = none) :
    ∀ d, dictGet (dictUpdate d n) k = dictGet d k := by
  induction n with
  | nil => exact fun d => rfl
  | cons p n' ih =>
      intro d
      obtain ⟨k₁, v₁⟩ := p
      rw [dictGet_cons] at h
      by_cases h1 : k₁ = k
      · rw [if_pos h1] at h; cases h
      · rw [if_neg h1] at h
        show dictGet (dictUpdate (dictSet d k₁ v₁) n') k = dictGet d k
        rw [ih h _, dictGet_dictSet_ne _ _ _ _ (fun he => h1 he.symm)]

lemma dictGet_dictUpdate_some (k : String) (v : YValue)
    (n : List (String × YValue)) (hnodup : (n.map Prod.fst).Nodup)
    (h : dictGet n k = some v) :
    ∀ d, dictGet (dictUpdate d n) k = some v := by
  induction n with
  | nil => cases h
  | cons p n' ih =>
      intro d
      obtain ⟨k₁, v₁⟩ := p
      simp only [List.map_cons, List.nodup_cons] at hnodup
      rw [dictGet_cons] at h
      by_cases h1 : k₁ = k
      · subst h1
        rw [if_pos rfl] at h
        injection h with h
        subst h
        have hnone : dictGet n' k₁ = none :=
          dictGet_none_of_not_mem _ _ hnodup.1
        show dictGet (dictUpdate (dictSet d k₁ v₁) n') k₁ = some v₁
        rw [dictGet_dictUpdate_none _ _ hnone _, dictGet_dictSet_self]
      · rw [if_neg h1] at h
        exact ih hnodup.2 h (dictSet d k₁ v₁)

/-- C10: For every parsed mapping whose `_COMMON_` merge key is present but
maps to a falsy value, the merge key is silently removed and the mapping is
returned with no merge resolution attempted, no Common-Data Document consulted
(the result is the same for every `common_data`, including none), and no error
raised. -/
theorem falsy_merge_key_removed (common_data : Option YValue)
    (impl_path : String) (data : List (String × YValue)) (v : YValue)
    (hkey : dictGet data "_COMMON_" = some v) (hfalsy : yFalsy v = true) :
    constructMapping common_data impl_path data =
      Except.ok (dictRemove data "_COMMON_") := by
  simp only [constructMapping, hkey]
  rw [if_pos hfalsy]

/-- Witness for C10: a falsy merge value with no common data present. -/
theorem falsy_merge_key_removed_witness :
    constructMapping none "cmd.yaml"
      [("_COMMON_", YValue.str ""), ("i", YValue.str "j")] =
      Except.ok [("i", YValue.str "j")] :=
  falsy_merge_key_removed none "cmd.yaml"
    [("_COMMON_", YValue.str ""), ("i", YValue.str "j")]
    (YValue.str "") rfl rfl

/-- C5: For every parsed mapping containing the `_COMMON_` merge key with a
truthy string value, the key is removed and each comma-separated attribute
path in its value is resolved against the Common-Data Document, with every
resolved mapping's entries merged into the current mapping by Python
`dict.update`; in particular, common data `{foo: {a: "b", c: "d"}}` merged
into `{_COMMON_: "foo", i: "j"}` yields the dict with entries
`a ↦ "b"`, `c ↦ "d"`, `i ↦ "j"`. -/
theorem mapping_merge_semantics (common_data : Option YValue)
    (impl_path : String) (data : List (String × YValue)) (s : String)
    (hkey : dictGet data "_COMMON_" = some (YValue.str s)) (hs : s ≠ "") :
    constructMapping common_data impl_path data =
      mergePaths common_data impl_path (dictRemove data "_COMMON_")
        (pySplit ',' s) ∧
    constructMapping
        (some (.map [("foo", .map [("a", .str "b"), ("c", .str "d")])]))
        impl_path [("_COMMON_", .str "foo"), ("i", .str "j")] =
      Except.ok [("i", .str "j"), ("a", .str "b"), ("c", .str "d")] ∧
    dictGet [("i", .str "j"), ("a", .str "b"), ("c", .str "d")] "a" =
      some (.str "b") ∧
    dictGet [("i", .str "j"), ("a", .str "b"), ("c", .str "d")] "c" =
      some (.str "d") ∧
    dictGet [("i", .str "j"), ("a", .str "b"), ("c", .str "d")] "i" =
      some (.str "j") := by
  refine ⟨?_, rfl, rfl, rfl, rfl⟩
  simp only [constructMapping, hkey]
  have hfalsy : yFalsy (YValue.str s) = false := by
    simp [yFalsy, hs]
  rw [if_neg (by simp [hfalsy])]

/-- Witness for C5: the spec's own example. -/
theorem mapping_merge_semantics_witness :
    constructMapping
        (some (.map [("foo", .map [("a", .str "b"), ("c", .str "d")])]))
        "cmd.yaml" [("_COMMON_", .str "foo"), ("i", .str "j")] =
      mergePaths
        (some (.map [("foo", .map [("a", .str "b"), ("c", .str "d")])]))
        "cmd.yaml" [("i", .str "j")] (pySplit ',' "foo") :=
  (mapping_merge_semantics
    (some (.map [("foo", .map [("a", .str "b"), ("c", .str "d")])]))
    "cmd.yaml" [("_COMMON_", .str "foo"), ("i", .str "j")] "foo"
    rfl (by decide)).1

lemma dictUpdate_cons (d : List (String × YValue)) (k₁ : String)
    (v₁ : YValue) (n : List (String × YValue)) :
    dictUpdate d ((k₁, v₁) :: n) = dictUpdate (dictSet d k₁ v₁) n := rfl

lemma dictGet_dictUpdate_or (n : List (String × YValue)) :
    ∀ (d : List (String × YValue)) (k : String),
      dictGet (dictUpdate d n) k =
        (dictGet (dictUpdate [] n) k).or (dictGet d k) := by
  induction n with
  | nil => intro d k; rfl
  | cons p n' ih =>
      intro d k
      obtain ⟨k₁, v₁⟩ := p
      rw [dictUpdate_cons, dictUpdate_cons, ih (dictSet d k₁ v₁) k,
        ih (dictSet [] k₁ v₁) k]
      by_cases h : k₁ = k
      · subst h
        rw [dictGet_dictSet_self, dictGet_dictSet_self]
        cases dictGet (dictUpdate [] n') k₁ <;> simp [Option.or]
      · rw [dictGet_dictSet_ne _ _ _ _ (fun he => h he.symm),
          dictGet_dictSet_ne _ _ _ _ (fun he => h he.symm)]
        cases dictGet (dictUpdate [] n') k <;> simp [Option.or, dictGet]

lemma dictGet_foldUpdate_or (ns : List (List (String × YValue))) :
    ∀ (d : List (String × YValue)) (k : String),
      dictGet (ns.foldl dictUpdate d) k =
        (dictGet (ns.foldl dictUpdate []) k).or (dictGet d k) := by
  induction ns with
  | nil => intro d k; rfl
  | cons n ns ih =>
      intro d k
      rw [List.foldl_cons, List.foldl_cons, ih (dictUpdate d n) k,
        ih (dictUpdate [] n) k, dictGet_dictUpdate_or n d k]
      cases dictGet (ns.foldl dictUpdate []) k <;>
        cases dictGet (dictUpdate [] n) k <;> simp [Option.or]

lemma dictGet_dictUpdate_isSome (n : List (String × YValue)) :
    ∀ k, (dictGet n k).isSome = true →
      (dictGet (dictUpdate [] n) k).isSome = true := by
  induction n with
  | nil => intro k h; simp [dictGet] at h
  | cons p n' ih =>
      intro k h
      obtain ⟨k₁, v₁⟩ := p
      rw [dictUpdate_cons, dictGet_dictUpdate_or n' (dictSet [] k₁ v₁) k]
      by_cases hk : k₁ = k
      · subst hk
        rw [dictGet_dictSet_self]
        cases dictGet (dictUpdate [] n') k₁ <;> simp [Option.or]
      · rw [dictGet_cons, if_neg hk] at h
        have hrec := ih k h
        rw [dictGet_dictSet_ne _ _ _ _ (fun he => hk he.symm)]
        cases hX : dictGet (dictUpdate [] n') k
        · rw [hX] at hrec; simp at hrec
        · simp [Option.or]

lemma dictGet_foldUpdate_isSome (ns : List (List (String × YValue))) :
    ∀ k, (∃ n ∈ ns, (dictGet n k).isSome = true) →
      (dictGet (ns.foldl dictUpdate []) k).isSome = true := by
  induction ns with
  | nil =>
      intro k h
      obtain ⟨n, hn, _⟩ := h
      cases hn
  | cons n ns ih =>
      intro k h
      rw [List.foldl_cons, dictGet_foldUpdate_or ns (dictUpdate [] n) k]
      obtain ⟨m, hm, hms⟩ := h
      rcases List.mem_cons.mp hm with rfl | hm'
      · have hrec := dictGet_dictUpdate_isSome m k hms
        cases hX : dictGet (dictUpdate [] m) k
        · rw [hX] at hrec; simp at hrec
        · cases dictGet (ns.foldl dictUpdate []) k <;> simp [hX, Option.or]
      · have hrec := ih k ⟨m, hm', hms⟩
        cases hY : dictGet (ns.foldl dictUpdate []) k
        · rw [hY] at hrec; simp at hrec
        · simp [hY, Option.or]

/-- The resolutions performed by the merge loop of `construct_mapping`: each
comma-separated attribute path, in order, resolved by `_GetData` to a mapping
(`update` of a non-mapping being the uncaught Python error, exactly as in
`mergePaths`). -/
def resolvePaths (common_data : Option YValue) (impl_path : String) :
    List String → Except CalliopeError (List (List (String × YValue)))
  | [] => Except.ok []
  | path :: rest =>
      match getData common_data impl_path path with
      | Except.error e => Except.error e
      | Except.ok (.map n) =>
          match resolvePaths common_data impl_path rest with
          | Except.error e => Except.error e
          | Except.ok ns => Except.ok (n :: ns)
      | Except.ok _ => Except.error (.uncaughtTypeError impl_path)

lemma mergePaths_resolvePaths (common_data : Option YValue)
    (impl_path : String) (ps : List String) :
    ∀ (d r : List (String × YValue)),
      mergePaths common_data impl_path d ps = Except.ok r →
      ∃ ns, resolvePaths common_data impl_path ps = Except.ok ns ∧
        r = ns.foldl dictUpdate d := by
  induction ps with
  | nil =>
      intro d r h
      injection h with h
      exact ⟨[], rfl, h.symm⟩
  | cons path rest ih =>
      intro d r h
      cases hg : getData common_data impl_path path with
      | error e =>
          simp only [mergePaths, hg] at h
          cases h
      | ok v =>
          cases v with
          | map n =>
              simp only [mergePaths, hg] at h
              obtain ⟨ns, h1, h2⟩ := ih (dictUpdate d n) r h
              refine ⟨n :: ns, ?_, ?_⟩
              · simp only [resolvePaths, hg, h1]
              · rw [List.foldl_cons]
                exact h2
          | str s =>
              simp only [mergePaths, hg] at h
              cases h
          | seq xs =>
              simp only [mergePaths, hg] at h
              cases h

/-- C9: In the structural merge of a mapping, the resolved common-data
mappings are applied by `update` after the mapping's own locally written
entries: whenever the merge fires (`_COMMON_` bound to a truthy string of
comma-separated paths) and construction succeeds, the result is the
`dict.update` fold of all the resolved mappings over the local entries, every
key present in some resolved mapping has a value resolved purely from the
common data, and for every such key that common-data value — not the local
one — is what the result holds. -/
theorem merge_overwrites_local (common_data : Option YValue)
    (impl_path : String) (data r : List (String × YValue)) (s : String)
    (hkey : dictGet data "_COMMON_" = some (YValue.str s)) (hs : s ≠ "")
    (hok : constructMapping common_data impl_path data = Except.ok r) :
    ∃ ns : List (List (String × YValue)),
      resolvePaths common_data impl_path (pySplit ',' s) = Except.ok ns ∧
      r = ns.foldl dictUpdate (dictRemove data "_COMMON_") ∧
      (∀ k, (∃ n ∈ ns, (dictGet n k).isSome = true) →
        (dictGet (ns.foldl dictUpdate []) k).isSome = true) ∧
      (∀ k (v : YValue), dictGet (ns.foldl dictUpdate []) k = some v →
        dictGet r k = some v) := by
  have hmp : mergePaths common_data impl_path (dictRemove data "_COMMON_")
      (pySplit ',' s) = Except.ok r := by
    simp only [constructMapping, hkey] at hok
    rw [if_neg (by simp [yFalsy, hs])] at hok
    exact hok
  obtain ⟨ns, h1, h2⟩ := mergePaths_resolvePaths common_data impl_path
    (pySplit ',' s) (dictRemove data "_COMMON_") r hmp
  refine ⟨ns, h1, h2, fun k => dictGet_foldUpdate_isSome ns k, ?_⟩
  intro k v hv
  rw [h2, dictGet_foldUpdate_or ns (dictRemove data "_COMMON_") k, hv]
  rfl

/-- Witness for C9: a two-path merge `_COMMON_: "foo,bar"` where the common
entries for keys `i` and `j` override the local ones. -/
theorem merge_overwrites_local_witness :
    ∃ ns : List (List (String × YValue)),
      resolvePaths
          (some (.map [("foo", YValue.map [("i", .str "X")]),
            ("bar", YValue.map [("j", .str "Y")])])) "cmd.yaml"
          (pySplit ',' "foo,bar") = Except.ok ns ∧
      [("i", YValue.str "X"), ("j", YValue.str "Y")] =
        ns.foldl dictUpdate
          (dictRemove
            [("_COMMON_", YValue.str "foo,bar"), ("i", YValue.str "j"),
              ("j", YValue.str "z")] "_COMMON_") ∧
      (∀ k, (∃ n ∈ ns, (dictGet n k).isSome = true) →
        (dictGet (ns.foldl dictUpdate []) k).isSome = true) ∧
      (∀ k (v : YValue), dictGet (ns.foldl dictUpdate []) k = some v →
        dictGet [("i", YValue.str "X"), ("j", YValue.str "Y")] k = some v) :=
  merge_overwrites_local
    (some (.map [("foo", YValue.map [("i", .str "X")]),
      ("bar", YValue.map [("j", .str "Y")])])) "cmd.yaml"
    [("_COMMON_", YValue.str "foo,bar"), ("i", YValue.str "j"),
      ("j", YValue.str "z")]
    [("i", YValue.str "X"), ("j", YValue.str "Y")] "foo,bar"
    rfl (by decide) rfl

/-- A node of the underlying YAML parse tree handed to the constructors:
plain scalars, `!COMMON`-tagged scalars (handled by `Loader.include`),
sequences, and mappings with scalar keys. -/
inductive YDoc where
  | scalar (s : String)
  | common (attribute_path : String)
  | seq (xs : List YDoc)
  | map (entries : List (String × YDoc))

mutual

/-- Construction of a whole document by the custom `Loader` of
`CreateYamlLoader`: children are constructed bottom-up, then
`construct_mapping` / `construct_sequence` post-processing runs at every
mapping / sequence node, and `!COMMON` scalars resolve through
`Loader.include`, i.e. `_GetData`. -/
def loaderConstruct (common_data : Option YValue) (impl_path : String) :
    YDoc → Except CalliopeError YValue
  | .scalar s => Except.ok (.str s)
  | .common attr_path => getData common_data impl_path attr_path
  | .seq xs =>
      match loaderConstructList common_data impl_path xs with
      | Except.error e => Except.error e
      | Except.ok vs =>
          match constructSequence common_data impl_path vs with
          | Except.error e => Except.error e
          | Except.ok vs' => Except.ok (.seq vs')
  | .map es =>
      match loaderConstructEntries common_data impl_path es with
      | Except.error e => Except.error e
      | Except.ok ves =>
          match constructMapping common_data impl_path ves with
          | Except.error e => Except.error e
          | Except.ok ves' => Except.ok (.map ves')

/-- Construction of the elements of a sequence node, left to right, stopping
at the first error. -/
def loaderConstructList (common_data : Option YValue) (impl_path : String) :
    List YDoc → Except CalliopeError (List YValue)
  | [] => Except.ok []
  | d :: ds =>
      match loaderConstruct common_data impl_path d with
      | Except.error e => Except.error e
      | Except.ok v =>
          match loaderConstructList common_data impl_path ds with
          | Except.error e => Except.error e
          | Except.ok vs => Except.ok (v :: vs)

/-- Construction of the values of a mapping node, left to right, stopping at
the first error. -/
def loaderConstructEntries (common_data : Option YValue) (impl_path : String) :
    List (String × YDoc) → Except CalliopeError (List (String × YValue))
  | [] => Except.ok []
  | (k, d) :: ds =>
      match loaderConstruct common_data impl_path d with
      | Except.error e => Except.error e
      | Except.ok v =>
          match loaderConstructEntries common_data impl_path ds with
          | Except.error e => Except.error e
          | Except.ok vs => Except.ok ((k, v) :: vs)

end

mutual

/-- Construction of a document by the plain underlying parser, with no
extension loader active: tags it does not know (`!COMMON`) are rejected, and
sequences and mappings are built structurally with no post-processing. -/
def plainConstruct : YDoc → Option YValue
  | .scalar s => some (.str s)
  | .common _ => none
  | .seq xs => (plainConstructList xs).map YValue.seq
  | .map es => (plainConstructEntries es).map YValue.map

/-- Plain construction of sequence elements. -/
def plainConstructList : List YDoc → Option (List YValue)
  | [] => some []
  | d :: ds =>
      match plainConstruct d with
      | none => none
      | some v =>
          match plainConstructList ds with
          | none => none
          | some vs => some (v :: vs)

/-- Plain construction of mapping entries. -/
def plainConstructEntries :
    List (String × YDoc) → Option (List (String × YValue))
  | [] => some []
  | (k, d) :: ds =>
      match plainConstruct d with
      | none => none
      | some v =>
          match plainConstructEntries ds with
          | none => none
          | some vs => some ((k, v) :: vs)

end

/-- A document node that the sequence post-processing would treat as a merge
marker: a scalar whose text starts with `_COMMON_`. -/
def scalarMergeMarker : YDoc → Bool
  | .scalar s => strHasLeading "_COMMON_" s
  | _ => false

mutual

/-- A document with no include markers and no merge markers: no
`!COMMON`-tagged scalar anywhere, no mapping key `_COMMON_`, and no sequence
element that is a `_COMMON_`-prefixed scalar. -/
def markerFree : YDoc → Bool
  | .scalar _ => true
  | .common _ => false
  | .seq xs => markerFreeList xs
  | .map es => markerFreeEntries es

/-- Marker freedom for the elements of a sequence node. -/
def markerFreeList : List YDoc → Bool
  | [] => true
  | x :: xs => !scalarMergeMarker x && markerFree x && markerFreeList xs

/-- Marker freedom for the entries of a mapping node. -/
def markerFreeEntries : List (String × YDoc) → Bool
  | [] => true
  | (k, d) :: ds => !(k == "_COMMON_") && markerFree d && markerFreeEntries ds

end

lemma constructSequence_id (common_data : Option YValue) (impl_path : String)
    (vs : List YValue) (h : ∀ v ∈ vs, mergeMarkerPath v = none) :
    constructSequence common_data impl_path vs = Except.ok vs := by
  induction vs with
  | nil => rfl
  | cons v vs ih =>
      have hv : mergeMarkerPath v = none := h v (List.mem_cons_self _ _)
      have ih' := ih (fun w hw => h w (List.mem_cons_of_mem _ hw))
      simp only [constructSequence, hv, ih']

lemma constructMapping_id (common_data : Option YValue) (impl_path : String)
    (ves : List (String × YValue)) (h : dictGet ves "_COMMON_" = none) :
    constructMapping common_data impl_path ves = Except.ok ves := by
  simp only [constructMapping, h]

lemma markerFreeEntries_no_common (es : List (String × YDoc))
    (h : markerFreeEntries es = true) : "_COMMON_" ∉ es.map Prod.fst := by
  induction es with
  | nil => simp
  | cons pr es ih =>
      obtain ⟨k, d⟩ := pr
      simp only [markerFreeEntries, Bool.and_eq_true] at h
      simp only [List.map_cons, List.mem_cons, not_or]
      exact ⟨fun he => by simp [he.symm] at h, ih h.2⟩

mutual

theorem markerFree_round (common_data : Option YValue) (impl_path : String) :
    ∀ d : YDoc, markerFree d = true →
      ∃ v, plainConstruct d = some v ∧
        loaderConstruct common_data impl_path d = Except.ok v ∧
        (scalarMergeMarker d = false → mergeMarkerPath v = none)
  | .scalar s, _ =>
      ⟨.str s, rfl, rfl, fun h2 => by
        simp only [scalarMergeMarker] at h2
        simp [mergeMarkerPath, h2]⟩
  | .common _, h => Bool.noConfusion h
  | .seq xs, h => by
      obtain ⟨vs, hp, hl, hm⟩ :=
        markerFree_round_list common_data impl_path xs h
      refine ⟨.seq vs, ?_, ?_, fun _ => rfl⟩
      · rw [plainConstruct, hp]; rfl
      · simp only [loaderConstruct, hl,
          constructSequence_id common_data impl_path vs hm]
  | .map es, h => by
      obtain ⟨ves, hp, hl, hk⟩ :=
        markerFree_round_entries common_data impl_path es h
      have hno : dictGet ves "_COMMON_" = none :=
        dictGet_none_of_not_mem _ _
          (hk ▸ markerFreeEntries_no_common es h)
      refine ⟨.map ves, ?_, ?_, fun _ => rfl⟩
      · rw [plainConstruct, hp]; rfl
      · simp only [loaderConstruct, hl,
          constructMapping_id common_data impl_path ves hno]

theorem markerFree_round_list (common_data : Option YValue)
    (impl_path : String) :
    ∀ xs : List YDoc, markerFreeList xs = true →
      ∃ vs, plainConstructList xs = some vs ∧
        loaderConstructList common_data impl_path xs = Except.ok vs ∧
        ∀ v ∈ vs, mergeMarkerPath v = none
  | [], _ => ⟨[], rfl, rfl, by simp⟩
  | x :: xs, h => by
      have h' : (!scalarMergeMarker x) = true ∧ markerFree x = true ∧
          markerFreeList xs = true := by
        simpa [markerFreeList, Bool.and_eq_true, and_assoc] using h
      obtain ⟨v, hvp, hvl, hvm⟩ :=
        markerFree_round common_data impl_path x h'.2.1
      obtain ⟨vs, hp, hl, hm⟩ :=
        markerFree_round_list common_data impl_path xs h'.2.2
      refine ⟨v :: vs, ?_, ?_, ?_⟩
      · simp only [plainConstructList, hvp, hp]
      · simp only [loaderConstructList, hvl, hl]
      · intro w hw
        rcases List.mem_cons.mp hw with rfl | hw'
        · exact hvm (by simpa using h'.1)
        · exact hm w hw'

theorem markerFree_round_entries (common_data : Option YValue)
    (impl_path : String) :
    ∀ es : List (String × YDoc), markerFreeEntries es = true →
      ∃ ves, plainConstructEntries es = some ves ∧
        loaderConstructEntries common_data impl_path es = Except.ok ves ∧
        ves.map Prod.fst = es.map Prod.fst
  | [], _ => ⟨[], rfl, rfl, rfl⟩
  | (k, d) :: es, h => by
      have h' : (!(k == "_COMMON_")) = true ∧ markerFree d = true ∧
          markerFreeEntries es = true := by
        simpa [markerFreeEntries, Bool.and_eq_true, and_assoc] using h
      obtain ⟨v, hvp, hvl, _⟩ :=
        markerFree_round common_data impl_path d h'.2.1
      obtain ⟨ves, hp, hl, hk⟩ :=
        markerFree_round_entries common_data impl_path es h'.2.2
      refine ⟨(k, v) :: ves, ?_, ?_, ?_⟩
      · simp only [plainConstructEntries, hvp, hp]
      · simp only [loaderConstructEntries, hvl, hl]
      · simp only [List.map_cons, hk]

end

/-- C7: For every structured document containing no include markers and no
merge markers, parsing it with the extension loader active produces a value
identical to parsing it with the plain underlying parser. -/
theorem no_marker_round_trip (common_data : Option YValue)
    (impl_path : String) (d : YDoc) (h : markerFree d = true) :
    ∃ v, plainConstruct d = some v ∧
      loaderConstruct common_data impl_path d = Except.ok v := by
  obtain ⟨v, h1, h2, _⟩ := markerFree_round common_data impl_path d h
  exact ⟨v, h1, h2⟩

/-- Witness for C7: a small marker-free document, with no common data
available. -/
theorem no_marker_round_trip_witness :
    ∃ v, plainConstruct
        (.map [("bar", .map [("i", .scalar "j")]),
               ("baz", .seq [.scalar "x", .scalar "y"])]) = some v ∧
      loaderConstruct none "cmd.yaml"
        (.map [("bar", .map [("i", .scalar "j")]),
               ("baz", .seq [.scalar "x", .scalar "y"])]) = Except.ok v :=
  no_marker_round_trip none "cmd.yaml"
    (.map [("bar", .map [("i", .scalar "j")]),
           ("baz", .seq [.scalar "x", .scalar "y"])]) rfl

/-- A source file location, split as directory plus file name. -/
structure ImplPath where
  dir : String
  name : String
deriving DecidableEq

/-- `os.path.join(os.path.dirname(impl_path), '__init__.yaml')`: the reserved
common-data file of the directory of the spec file being loaded. -/
def commonFilePath (impl_path : ImplPath) : ImplPath :=
  ⟨impl_path.dir, "__init__.yaml"⟩

/-- The common-data parses performed by one `CreateYamlLoader(impl_path)`
call over filesystem contents `fs`: the directory's `__init__.yaml` is parsed
exactly when it exists; when absent, nothing is read and loader creation
still succeeds. -/
def createYamlLoaderCommonParses (fs : ImplPath → Option YValue)
    (impl_path : ImplPath) : List ImplPath :=
  if (fs (commonFilePath impl_path)).isSome then [commonFilePath impl_path]
  else []

/-- The `common_data` value captured by the loader `CreateYamlLoader`
returns: the parse of the directory's `__init__.yaml`, or `None` when the
file is absent. -/
def createYamlLoaderCommonData (fs : ImplPath → Option YValue)
    (impl_path : ImplPath) : Option YValue :=
  fs (commonFilePath impl_path)

/-- How many times directory `d`'s `__init__.yaml` is parsed in one loading
session that runs `CreateYamlLoader` once for each spec file in `files`, as
`LoadCommonType` does for every yaml implementation path it loads. -/
def sessionCommonParses (fs : ImplPath → Option YValue)
    (files : List ImplPath) (d : String) : Nat :=
  (files.map (fun f =>
    ((createYamlLoaderCommonParses fs f).filter
      (fun c => c.dir == d)).length)).sum

/-- Counterexample to C4: a session that loads two spec files from the same
directory parses that directory's common-data file twice — there is no
directory-keyed session cache, only a per-`CreateYamlLoader` closure. -/
theorem session_reparses_common_data :
    sessionCommonParses (fun _ => some (.map []))
      [⟨"surface/sql", "export.yaml"⟩, ⟨"surface/sql", "import.yaml"⟩]
      "surface/sql" = 2 ∧
    ¬ (sessionCommonParses (fun _ => some (.map []))
      [⟨"surface/sql", "export.yaml"⟩, ⟨"surface/sql", "import.yaml"⟩]
      "surface/sql" ≤ 1) := by
  constructor
  · rfl
  · intro h
    exact absurd h (by decide)

/-- C4 (amended): The Common-Data Document is loaded and parsed at most once
per `CreateYamlLoader` call — that is, once per spec file loaded, not once
per directory per session — and its absence is not an error: loader creation
succeeds with `common_data` unset, and a document referencing no include or
merge marker still parses. -/
theorem common_data_once_per_loader (fs : ImplPath → Option YValue)
    (f : ImplPath) (d : String) :
    ((createYamlLoaderCommonParses fs f).filter
      (fun c => c.dir == d)).length ≤ 1 ∧
    createYamlLoaderCommonData (fun _ => none) f = none ∧
    (∀ impl_path doc, markerFree doc = true →
      ∃ v, loaderConstruct none impl_path doc = Except.ok v) := by
  refine ⟨?_, rfl, ?_⟩
  · have h1 := List.length_filter_le (fun c => c.dir == d)
      (createYamlLoaderCommonParses fs f)
    have h2 : (createYamlLoaderCommonParses fs f).length ≤ 1 := by
      unfold createYamlLoaderCommonParses
      split <;> simp
    exact le_trans h1 h2
  · intro impl_path doc h
    obtain ⟨v, _, h2, _⟩ := markerFree_round none impl_path doc h
    exact ⟨v, h2⟩

/-- Witness for the amended C4: a concrete loader creation and a concrete
marker-free parse with no common data. -/
theorem common_data_once_per_loader_witness :
    ((createYamlLoaderCommonParses (fun _ => some (.map []))
      ⟨"surface/sql", "export.yaml"⟩).filter
        (fun c => c.dir == "surface/sql")).length ≤ 1 ∧
    createYamlLoaderCommonData (fun _ => none)
      ⟨"surface/sql", "export.yaml"⟩ = none ∧
    (∃ v, loaderConstruct none "export.yaml"
      (.map [("bar", .scalar "x")]) = Except.ok v) :=
  ⟨(common_data_once_per_loader (fun _ => some (.map []))
      ⟨"surface/sql", "export.yaml"⟩ "surface/sql").1,
   (common_data_once_per_loader (fun _ => some (.map []))
      ⟨"surface/sql", "export.yaml"⟩ "surface/sql").2.1,
   (common_data_once_per_loader (fun _ => some (.map []))
      ⟨"surface/sql", "export.yaml"⟩ "surface/sql").2.2 "export.yaml"
     (.map [("bar", .scalar "x")]) rfl⟩
